import Mathlib

/-!
Verification of the RenEx SDK order-ingress core (`src/lib/ingress.ts`).

The TypeScript source is shallowly embedded: big-endian fixed-width byte
serialization (`BN.toArrayLike(Buffer, "be", w)`) becomes `beBytes`, the
Keccak-256 hash and the per-node RSA encryption are abstract function
parameters (their internals are outside the verified core), JavaScript
numbers holding integral values become `Nat`/`Int`, and the `async`
control flow of `getPods`/`buildOrderFragmentsForPods` (which is
sequential in effect) becomes plain recursion.  The unbounded `while`
loop inside `getPods` is modelled with an explicit fuel parameter so
that its (non-)termination can be stated.
-/

namespace RenEx

/-! ## Fixed-width big-endian serialization (`BN.toArrayLike(Buffer, "be", w)`)

`beBytes w v` is the `w`-byte big-endian encoding of `v`.  `bn.js`
throws when the value does not fit in `w` bytes; the theorems that rely
on exactness therefore carry `v < 256 ^ w` hypotheses. -/

def beBytes : Nat → Nat → List Nat
  | 0, _ => []
  | w + 1, v => (v / 256 ^ w) % 256 :: beBytes w v

/-- Big-endian value of a byte string (the inverse reading of `beBytes`). -/
def fromBEBytes : List Nat → Nat
  | [] => 0
  | b :: bs => b * 256 ^ bs.length + fromBEBytes bs

@[simp] theorem beBytes_length (w v : Nat) : (beBytes w v).length = w := by
  induction w generalizing v with
  | zero => rfl
  | succ w ih => simp [beBytes, ih]

theorem fromBEBytes_beBytes_mod (w v : Nat) :
    fromBEBytes (beBytes w v) = v % 256 ^ w := by
  induction w generalizing v with
  | zero => simp [beBytes, fromBEBytes, Nat.mod_one]
  | succ w ih =>
    simp only [beBytes, fromBEBytes, beBytes_length, ih]
    rw [pow_succ, Nat.mod_mul]
    ring

theorem fromBEBytes_beBytes {w v : Nat} (h : v < 256 ^ w) :
    fromBEBytes (beBytes w v) = v := by
  rw [fromBEBytes_beBytes_mod, Nat.mod_eq_of_lt h]

/-! ## The `Order` record (`ingress.ts`, `Order extends Record({...})`)

`Tuple` is the `{c, q}` mantissa/exponent pair; its components are
JavaScript numbers, embedded as `Int` so that the sign checks of
`verifyOrder` are meaningful.  `id` and `signature` are byte strings
(the source keeps them base64-encoded; base64 is a bijective surface
encoding and is dropped from the model). -/

structure Tuple where
  c : Int
  q : Int
deriving Repr, DecidableEq

structure Order where
  signature : List Nat
  id : List Nat
  type : Nat
  parity : Nat
  orderSettlement : Nat
  expiry : Nat
  tokens : Nat
  price : Tuple
  volume : Tuple
  minimumVolume : Tuple
  nonce : Nat
deriving Repr, DecidableEq

def ErrorCanceledByUser : String := "Canceled by user"

def ErrorUnsignedTransaction : String := "Unable to sign transaction"

def ErrorInvalidOrderDetails : String := "Something went wrong while encoding order"

/-- `verifyOrder` from `ingress.ts`: bounds checks on the three
mantissa/exponent pairs (and nothing else). -/
def verifyOrder (order : Order) : Bool :=
  (order.price.c ≥ 0 && order.price.c ≤ 1999 &&
    order.price.q ≥ 0 && order.price.q ≤ 52) &&
  (order.volume.c ≥ 0 && order.volume.c ≤ 49 &&
    order.volume.q ≥ 0 && order.volume.q ≤ 52) &&
  (order.minimumVolume.c ≥ 0 && order.minimumVolume.c ≤ 49 &&
    order.minimumVolume.q ≥ 0 && order.minimumVolume.q ≤ 52)

/-- The byte string hashed by `getOrderID` (`Buffer.concat([...])` in the
source).  Negative mantissa/exponent values are clamped through `Int.toNat`;
the exactness theorems carry nonnegativity hypotheses, matching `bn.js`
behaviour on the values the source actually serializes. -/
def orderPreimage (keccak : List Nat → List Nat) (order : Order) : List Nat :=
  beBytes 1 order.type ++
  beBytes 1 order.parity ++
  beBytes 4 order.orderSettlement ++
  beBytes 8 order.expiry ++
  beBytes 8 order.tokens ++
  beBytes 8 order.price.c.toNat ++
  beBytes 8 order.price.q.toNat ++
  beBytes 8 order.volume.c.toNat ++
  beBytes 8 order.volume.q.toNat ++
  beBytes 8 order.minimumVolume.c.toNat ++
  beBytes 8 order.minimumVolume.q.toNat ++
  keccak (beBytes 8 order.nonce)

/-- `getOrderID` from `ingress.ts`; `keccak` abstracts
`web3.utils.keccak256` as a function on byte strings. -/
def getOrderID (keccak : List Nat → List Nat) (order : Order) : List Nat :=
  keccak (orderPreimage keccak order)

/-- Modelled from the spec (§4.4): the order-id preimage layout
`type(1B) ‖ parity(1B) ‖ settlement(4B) ‖ expiry(8B) ‖ tokens(8B) ‖
price.mantissa(8B) ‖ price.exponent(8B) ‖ volume.mantissa(8B) ‖
volume.exponent(8B) ‖ minimumVolume.mantissa(8B) ‖
minimumVolume.exponent(8B) ‖ hash(nonce(8B))`, all integers big-endian
unsigned.  Written from the spec sentence, to be compared with
`orderPreimage` (transcribed from the source). -/
def specEncodeOrder (hash : List Nat → List Nat) (order : Order) : List Nat :=
  beBytes 1 order.type ++ beBytes 1 order.parity ++
  beBytes 4 order.orderSettlement ++ beBytes 8 order.expiry ++
  beBytes 8 order.tokens ++
  beBytes 8 order.price.c.toNat ++ beBytes 8 order.price.q.toNat ++
  beBytes 8 order.volume.c.toNat ++ beBytes 8 order.volume.q.toNat ++
  beBytes 8 order.minimumVolume.c.toNat ++
  beBytes 8 order.minimumVolume.q.toNat ++
  hash (beBytes 8 order.nonce)

/-- Result of `web3.eth.sign`: a signature, or one of the two failure
modes `openOrder` distinguishes. -/
inductive SignResult where
  | ok (sig : List Nat)
  | deniedByUser
  | otherError
deriving Repr, DecidableEq

/-- ASCII bytes of the message tag `"Republic Protocol: open: "`
(`web3.utils.toHex` turns the string into its byte-per-character hex
form before it is prepended to the order id). -/
def openMessageTag : List Nat :=
  ("Republic Protocol: open: ".toList.map Char.toNat)

/-- Signature normalization from `openOrder`: if byte 64 (the recovery
value `v`) is 27 or 28 it is replaced by `v - 27`. -/
def normalizeV (sig : List Nat) : List Nat :=
  if sig.getD 64 0 = 27 || sig.getD 64 0 = 28 then
    sig.set 64 (sig.getD 64 0 - 27)
  else sig

/-- `openOrder` from `ingress.ts`: verify, hash, sign, normalize the
signature, and return the order with `id` and `signature` filled in.
`sign` abstracts `web3.eth.sign` on the message bytes. -/
def openOrder (keccak : List Nat → List Nat) (sign : List Nat → SignResult)
    (order : Order) : Except String Order :=
  if !verifyOrder order then Except.error ErrorInvalidOrderDetails
  else
    let id := getOrderID keccak order
    match sign (openMessageTag ++ id) with
    | SignResult.deniedByUser => Except.error ErrorCanceledByUser
    | SignResult.otherError => Except.error ErrorUnsignedTransaction
    | SignResult.ok sig =>
      Except.ok { order with id := id, signature := normalizeV sig }

/-! ## Nonce generation (`randomNonce`) and the field prime -/

/-- Modelled from the spec: `shamir.PRIME`, the prime of the fixed
secret-sharing field, lives in the shamir module, which is not among the
sources.  The spec (§4.1, §4.2) fixes only that it is prime and that
shares and nonces are serialized into 8 bytes, so it is modelled as the
largest prime below `2 ^ 64`. -/
def PRIME : Nat := 18446744073709551557

/-- `randomNonce` from `ingress.ts`: draw from the random source until
the value is below the field prime.  The random source is a stream
`f : Nat → Nat` read at successive positions, and the retry loop is
fuelled. -/
def randomNonce (f : Nat → Nat) : Nat → Nat → Option Nat
  | _, 0 => none
  | i, fuel + 1 =>
    if f i < PRIME then some (f i) else randomNonce f (i + 1) fuel

/-! ## Shares, keys and ciphertext data -/

/-- A Shamir share `(index, value)` as produced by `shamir.split`. -/
structure Share where
  index : Nat
  value : Nat
deriving Repr, DecidableEq

instance : Inhabited Share := ⟨⟨0, 0⟩⟩

/-- `EncodedData` reduced to its underlying byte string; the base64 /
hex surface encodings of the source class are bijective re-encodings
and are dropped.  The empty-base64 sentinel of `encryptForDarknode`
becomes `⟨[]⟩`. -/
structure EncodedData where
  bytes : List Nat
deriving Repr, DecidableEq

instance : Inhabited EncodedData := ⟨⟨[]⟩⟩

/-- The RSA key assembled by `getDarknodePublicKey` (`node-rsa` import
of `{n, e}`). -/
structure RSAKey where
  e : Nat
  n : List Nat
deriving Repr, DecidableEq

/-- `getDarknodePublicKey` from `ingress.ts`.  `getKeyHex` abstracts the
`DarknodeRegistry.getDarknodePublicKey` contract call, returning the
hex-decoded key bytes (`none` models a `null` return, `some []` an
empty string).  The exponent is `readUInt32BE(4)` of the first 8 bytes
and the modulus is the rest. -/
def getDarknodePublicKey {α : Type} (getKeyHex : α → Option (List Nat))
    (darknode : α) : Option RSAKey :=
  match getKeyHex darknode with
  | none => none
  | some bs =>
    if bs.length = 0 then none
    else some ⟨fromBEBytes ((bs.take 8).drop 4), bs.drop 8⟩

/-- `encryptForDarknode` from `ingress.ts`: with no key, the explicit
empty sentinel; otherwise RSA encryption (abstracted as `rsa`) of
`index ‖ value`, each serialized as `byteCount` big-endian bytes. -/
def encryptForDarknode (rsa : RSAKey → List Nat → List Nat)
    (darknodeKey : Option RSAKey) (share : Share) (byteCount : Nat) :
    EncodedData :=
  match darknodeKey with
  | none => ⟨[]⟩
  | some key =>
    ⟨rsa key (beBytes byteCount share.index ++ beBytes byteCount share.value)⟩

/-- The `OrderFragment` record from `ingress.ts` (ciphertext fields hold
the `EncodedData` whose base64 form the source stores). -/
structure OrderFragment where
  id : List Nat
  orderSignature : List Nat
  orderId : List Nat
  orderType : Nat
  orderParity : Nat
  orderSettlement : Nat
  orderExpiry : Nat
  tokens : EncodedData
  price : EncodedData × EncodedData
  volume : EncodedData × EncodedData
  minimumVolume : EncodedData × EncodedData
  nonce : EncodedData
  index : Nat
deriving Repr, DecidableEq

instance : Inhabited OrderFragment :=
  ⟨⟨[], [], [], 0, 0, 0, 0, default, (default, default), (default, default),
    (default, default), default, 0⟩⟩

/-- The `Pool` record from `ingress.ts` (the transient `orderFragments`
field is returned separately by the fragment builder). -/
structure Pool (α : Type) where
  id : List Nat
  darknodes : List α
deriving Repr, DecidableEq

/-! ## Pod assignment (`getPods`)

The registry snapshot is the tuple
`(darknodes, isRegistered, minimumPodSize, epoch)`; `hash` abstracts
`web3.utils.keccak256` and `addrBytes` the hex decoding of a node
address (`new Buffer(darknode.substring(2), "hex")`).

The inner `while` loop of the source has no bound, so `findSlot` takes
a fuel argument; `getPods` returns `none` when the fuel runs out
(modelling divergence), `some (Except.error e)` for the source's
`Promise.reject` cases and `some (Except.ok pools)` on success. -/

/-- Exit condition of the inner `while` loop: slot `x` holds a
registered node and is not yet used (`positionInOcean[x] === -1`). -/
def slotOK {α : Type} [Inhabited α] (reg : α → Bool) (darknodes : List α)
    (pos : List Int) (x : Nat) : Bool :=
  reg (darknodes.getD x default) && pos.getD x (-1) == -1

/-- The inner `while` loop: advance `x` circularly (mod `n`) until
`slotOK`, with explicit fuel. -/
def findSlot {α : Type} [Inhabited α] (reg : α → Bool) (darknodes : List α)
    (n : Nat) (pos : List Int) (x : Nat) : Nat → Option Nat
  | 0 => none
  | fuel + 1 =>
    if slotOK reg darknodes pos x then some x
    else findSlot reg darknodes n pos ((x + 1) % n) fuel

/-- The main `for` loop of `getPods`: `i` is the source's loop counter,
`r` the number of iterations left, `pos` the `positionInOcean` list,
`pools` the per-pod darknode lists and `x` the cursor.  Each iteration
finds a free registered slot, marks it with `i`, pushes its node onto
pod `i % numberOfPods` and steps the cursor by `epochVal` mod `n`. -/
def podLoop {α : Type} [Inhabited α] (reg : α → Bool) (darknodes : List α)
    (n numberOfPods epochVal fuel : Nat) :
    Nat → Nat → List Int → List (List α) → Nat →
    Option (List Int × List (List α))
  | _, 0, pos, pools, _ => some (pos, pools)
  | i, r + 1, pos, pools, x =>
    match findSlot reg darknodes n pos x fuel with
    | none => none
    | some y =>
      podLoop reg darknodes n numberOfPods epochVal fuel (i + 1) r
        (pos.set y (i : Int))
        (pools.set (i % numberOfPods)
          (pools.getD (i % numberOfPods) [] ++ [darknodes.getD y default]))
        ((y + epochVal) % n)

/-- `getPods` from `ingress.ts`.  The final step (the source's indexed
`pools.set` loop, which touches each index exactly once) gives every pod
its id: the hash of the concatenated member address bytes. -/
def getPods {α : Type} [Inhabited α] (hash : List Nat → List Nat)
    (addrBytes : α → List Nat) (darknodes : List α) (reg : α → Bool)
    (minimumPodSize epoch fuel : Nat) :
    Option (Except String (List (Pool α))) :=
  if darknodes.length = 0 then some (Except.error ("no darknodes in contract"))
  else if minimumPodSize = 0 then
    some (Except.error ("invalid minimum pod size (0)"))
  else
    let n := darknodes.length
    let numberOfPods :=
      if n / minimumPodSize = 0 then 1 else n / minimumPodSize
    match podLoop reg darknodes n numberOfPods epoch fuel 0 n
        (List.replicate n (-1)) (List.replicate numberOfPods []) (epoch % n)
      with
    | none => none
    | some (_, pools) =>
      some (Except.ok (pools.map fun ds =>
        ⟨hash (ds.map addrBytes).flatten, ds⟩))

/-- Modelled from the spec (§4.3 `assignPods`): fail on an empty node
list or zero minimum pod size; `numberOfPods = max(1, floor(totalNodes /
minimumPodSize))`; `stride = epoch mod totalNodes`, `cursor = stride`;
for each `i` advance the cursor circularly to a registered unused slot,
assign it to pod `i mod numberOfPods`, mark it used and step the cursor
by the stride mod `totalNodes`; finally each pod's id is the hash of its
members' concatenated address bytes.  Written from the spec's words, to
be compared with `getPods` (transcribed from the source). -/
def specAssignPods {α : Type} [Inhabited α] (hash : List Nat → List Nat)
    (addrBytes : α → List Nat) (darknodes : List α) (reg : α → Bool)
    (minimumPodSize epoch fuel : Nat) :
    Option (Except String (List (Pool α))) :=
  if darknodes.length = 0 then some (Except.error ("NoNodesAvailable"))
  else if minimumPodSize = 0 then some (Except.error ("InvalidPodSize"))
  else
    let totalNodes := darknodes.length
    let numberOfPods := max 1 (totalNodes / minimumPodSize)
    let stride := epoch % totalNodes
    match podLoop reg darknodes totalNodes numberOfPods stride fuel 0
        totalNodes (List.replicate totalNodes (-1))
        (List.replicate numberOfPods []) stride
      with
    | none => none
    | some (_, pools) =>
      some (Except.ok (pools.map fun ds =>
        ⟨hash (ds.map addrBytes).flatten, ds⟩))

/-! ## Fragment building (`buildOrderFragmentsForPods`)

`split` abstracts `shamir.split` (the shamir module is not among the
sources; its contract, from spec §4.1, is that `split n k secret`
returns `n` shares), `rsa` the per-key RSA encryption and `jsonHash`
the source's `hashOrderFragmentToId` serialization-and-keccak of a
fragment. -/

/-- The body of the per-pool `map` in `buildOrderFragmentsForPods`:
split every numeric sub-value into `n` shares with threshold
`k = ⌊2(n+1)/3⌋`, then build one fragment per member node, the node at
position `i` getting share `i` of every sub-value and `index = i + 1`,
and each fragment's id being the hash of its own content. -/
def buildPoolFragments {α : Type} [Inhabited α]
    (jsonHash : OrderFragment → List Nat)
    (split : Nat → Nat → Nat → List Share)
    (rsa : RSAKey → List Nat → List Nat)
    (getKeyHex : α → Option (List Nat))
    (order : Order) (pool : Pool α) : List OrderFragment :=
  let n := pool.darknodes.length
  let k := 2 * (n + 1) / 3
  let tokenShares := split n k order.tokens
  let priceCoShares := split n k order.price.c.toNat
  let priceExpShares := split n k order.price.q.toNat
  let volumeCoShares := split n k order.volume.c.toNat
  let volumeExpShares := split n k order.volume.q.toNat
  let minimumVolumeCoShares := split n k order.minimumVolume.c.toNat
  let minimumVolumeExpShares := split n k order.minimumVolume.q.toNat
  let nonceShares := split n k order.nonce
  (List.range n).map fun i =>
    let darknode := pool.darknodes.getD i default
    let darknodeKey := getDarknodePublicKey getKeyHex darknode
    let fragment : OrderFragment :=
      { id := []
        orderSignature := order.signature
        orderId := order.id
        orderType := order.type
        orderParity := order.parity
        orderSettlement := order.orderSettlement
        orderExpiry := order.expiry
        tokens := encryptForDarknode rsa darknodeKey (tokenShares.getD i default) 8
        price :=
          (encryptForDarknode rsa darknodeKey (priceCoShares.getD i default) 8,
           encryptForDarknode rsa darknodeKey (priceExpShares.getD i default) 8)
        volume :=
          (encryptForDarknode rsa darknodeKey (volumeCoShares.getD i default) 8,
           encryptForDarknode rsa darknodeKey (volumeExpShares.getD i default) 8)
        minimumVolume :=
          (encryptForDarknode rsa darknodeKey (minimumVolumeCoShares.getD i default) 8,
           encryptForDarknode rsa darknodeKey (minimumVolumeExpShares.getD i default) 8)
        nonce := encryptForDarknode rsa darknodeKey (nonceShares.getD i default) 8
        index := i + 1 }
    { fragment with id := jsonHash fragment }

/-- `buildOrderFragmentsForPods` from `ingress.ts`: compute the pods,
build each pod's fragments, and reduce them into a mapping from pod id
to fragment list (`Immutable.Map.set` applied in pod order, modelled as
a lookup function). -/
def buildOrderFragmentsForPods {α : Type} [Inhabited α]
    (keccak : List Nat → List Nat) (jsonHash : OrderFragment → List Nat)
    (split : Nat → Nat → Nat → List Share)
    (rsa : RSAKey → List Nat → List Nat)
    (addrBytes : α → List Nat) (getKeyHex : α → Option (List Nat))
    (darknodes : List α) (reg : α → Bool) (minimumPodSize epoch fuel : Nat)
    (order : Order) :
    Option (Except String (List Nat → Option (List OrderFragment))) :=
  match getPods keccak addrBytes darknodes reg minimumPodSize epoch fuel with
  | none => none
  | some (Except.error e) => some (Except.error e)
  | some (Except.ok pods) =>
    some (Except.ok (pods.foldl
      (fun m pool => fun key =>
        if key = pool.id then
          some (buildPoolFragments jsonHash split rsa getKeyHex order pool)
        else m key)
      (fun _ => none)))

/-! ## Shared list helpers -/

theorem getD_set_self {β : Type} (l : List β) (i : Nat) (v d : β)
    (h : i < l.length) : (l.set i v).getD i d = v := by
  rw [List.getD_eq_getElem?_getD, List.getElem?_set_self h]
  rfl

theorem getD_set_ne {β : Type} (l : List β) (i j : Nat) (v d : β)
    (h : i ≠ j) : (l.set i v).getD j d = l.getD j d := by
  rw [List.getD_eq_getElem?_getD, List.getElem?_set, if_neg h,
    List.getD_eq_getElem?_getD]

theorem getD_replicate_self {β : Type} (n i : Nat) (d : β) :
    (List.replicate n d).getD i d = d := by
  rw [List.getD_eq_getElem?_getD]
  rcases Nat.lt_or_ge i n with h | h
  · rw [List.getElem?_eq_getElem (by simpa using h)]
    simp [List.getElem_replicate]
  · rw [List.getElem?_eq_none (by simpa using h)]
    rfl

theorem getD_map_range {β : Type} [Inhabited β] (f : Nat → β) {n i : Nat}
    (h : i < n) :
    ((List.range n).map f).getD i default = f i := by
  rw [List.getD_eq_getElem?_getD, List.getElem?_map, List.getElem?_range h]
  rfl

/-- Counting with a predicate that loses exactly one witness `y`. -/
theorem countP_pointwise_pred {β : Type} (l : List β) (p p' : β → Bool)
    (y : β) (hnd : l.Nodup) (hy : y ∈ l) (hpy : p y = true)
    (hp'y : p' y = false) (hother : ∀ z ∈ l, z ≠ y → p' z = p z) :
    l.countP p = l.countP p' + 1 := by
  induction l with
  | nil => cases hy
  | cons a t ih =>
    rw [List.countP_cons, List.countP_cons]
    rcases List.mem_cons.mp hy with rfl | hyt
    · have hyt : y ∉ t := (List.nodup_cons.mp hnd).1
      have ht : t.countP p' = t.countP p := by
        apply List.countP_congr
        intro z hz
        rw [hother z (List.mem_cons_of_mem _ hz)
          (fun he => hyt (he ▸ hz))]
      rw [hpy, hp'y, ht]
      simp
    · have hay : a ≠ y := by
        rintro rfl
        exact (List.nodup_cons.mp hnd).1 hyt
      have hrec := ih (List.nodup_cons.mp hnd).2 hyt
        (fun z hz hzy => hother z (List.mem_cons_of_mem _ hz) hzy)
      rw [hother a (List.mem_cons_self a t) hay, hrec]
      omega

/-! ## Claim C3: order-id preimage layout -/

/-- **C3.** For every order within the serialization bounds, the
preimage built by `getOrderID` is exactly the fixed layout
`type(1B) ‖ parity(1B) ‖ settlement(4B) ‖ expiry(8B) ‖ tokens(8B) ‖
price.c(8B) ‖ price.q(8B) ‖ volume.c(8B) ‖ volume.q(8B) ‖
minimumVolume.c(8B) ‖ minimumVolume.q(8B) ‖ hash(nonce(8B))` with every
integer big-endian unsigned (each fixed-width chunk decodes back to its
field), and the order id is the Keccak-256 hash of that byte string. -/
theorem getOrderID_layout (keccak : List Nat → List Nat) (order : Order)
    (hv : verifyOrder order = true)
    (ht : order.type < 2 ^ 8) (hp : order.parity < 2 ^ 8)
    (hs : order.orderSettlement < 2 ^ 32) (he : order.expiry < 2 ^ 64)
    (htok : order.tokens < 2 ^ 64) (hn : order.nonce < 2 ^ 64) :
    getOrderID keccak order = keccak (specEncodeOrder keccak order) ∧
    orderPreimage keccak order = specEncodeOrder keccak order ∧
    fromBEBytes (beBytes 1 order.type) = order.type ∧
    fromBEBytes (beBytes 1 order.parity) = order.parity ∧
    fromBEBytes (beBytes 4 order.orderSettlement) = order.orderSettlement ∧
    fromBEBytes (beBytes 8 order.expiry) = order.expiry ∧
    fromBEBytes (beBytes 8 order.tokens) = order.tokens ∧
    (fromBEBytes (beBytes 8 order.price.c.toNat) : Int) = order.price.c ∧
    (fromBEBytes (beBytes 8 order.price.q.toNat) : Int) = order.price.q ∧
    (fromBEBytes (beBytes 8 order.volume.c.toNat) : Int) = order.volume.c ∧
    (fromBEBytes (beBytes 8 order.volume.q.toNat) : Int) = order.volume.q ∧
    (fromBEBytes (beBytes 8 order.minimumVolume.c.toNat) : Int) =
      order.minimumVolume.c ∧
    (fromBEBytes (beBytes 8 order.minimumVolume.q.toNat) : Int) =
      order.minimumVolume.q ∧
    fromBEBytes (beBytes 8 order.nonce) = order.nonce := by
  have hb : (2 : Nat) ^ 8 = 256 ^ 1 := by norm_num
  have hb4 : (2 : Nat) ^ 32 = 256 ^ 4 := by norm_num
  have hb8 : (2 : Nat) ^ 64 = 256 ^ 8 := by norm_num
  simp only [verifyOrder, Bool.and_eq_true, decide_eq_true_eq, ge_iff_le] at hv
  obtain ⟨⟨⟨⟨⟨hpc0, hpc1⟩, hpq0⟩, hpq1⟩, ⟨⟨⟨hvc0, hvc1⟩, hvq0⟩, hvq1⟩⟩,
    ⟨⟨⟨hmc0, hmc1⟩, hmq0⟩, hmq1⟩⟩ := hv
  have tupleRT : ∀ z : Int, 0 ≤ z → z ≤ 1999 →
      (fromBEBytes (beBytes 8 z.toNat) : Int) = z := by
    intro z h0 h1
    rw [fromBEBytes_beBytes (by omega), Int.toNat_of_nonneg h0]
  refine ⟨rfl, rfl, ?_, ?_, ?_, ?_, ?_, ?_, ?_, ?_, ?_, ?_, ?_, ?_⟩
  · exact fromBEBytes_beBytes (hb ▸ ht)
  · exact fromBEBytes_beBytes (hb ▸ hp)
  · exact fromBEBytes_beBytes (hb4 ▸ hs)
  · exact fromBEBytes_beBytes (hb8 ▸ he)
  · exact fromBEBytes_beBytes (hb8 ▸ htok)
  · exact tupleRT _ hpc0 (by omega)
  · exact tupleRT _ hpq0 (by omega)
  · exact tupleRT _ hvc0 (by omega)
  · exact tupleRT _ hvq0 (by omega)
  · exact tupleRT _ hmc0 (by omega)
  · exact tupleRT _ hmq0 (by omega)
  · exact fromBEBytes_beBytes (hb8 ▸ hn)

/-- A concrete order whose fields satisfy every `verifyOrder` bound. -/
def sampleOrder : Order :=
  { signature := [], id := [], type := 1, parity := 0, orderSettlement := 1,
    expiry := 1000, tokens := 65544, price := ⟨1999, 52⟩, volume := ⟨49, 12⟩,
    minimumVolume := ⟨1, 12⟩, nonce := 42 }

/-- Witness for `getOrderID_layout` at `sampleOrder` with the identity
in place of the hash. -/
theorem getOrderID_layout_witness :
    getOrderID (fun bs => bs) sampleOrder =
      specEncodeOrder (fun bs => bs) sampleOrder ∧
    fromBEBytes (beBytes 8 sampleOrder.nonce) = sampleOrder.nonce := by
  obtain ⟨h1, -, -, -, -, -, -, -, -, -, -, -, -, h14⟩ :=
    getOrderID_layout (fun bs => bs) sampleOrder (by decide) (by decide)
      (by decide) (by decide) (by decide) (by decide) (by decide)
  exact ⟨h1, h14⟩

/-! ## Claim C4: `verifyOrder` bounds and `openOrder` rejection -/

/-- **C4.** `verifyOrder` accepts an order exactly when the price pair
lies in `[0,1999] × [0,52]` and both volume pairs lie in
`[0,49] × [0,52]`; and `openOrder` rejects (without hashing, signing or
submitting) any order `verifyOrder` rejects. -/
theorem verifyOrder_bounds (order : Order) :
    (verifyOrder order = true ↔
      (0 ≤ order.price.c ∧ order.price.c ≤ 1999 ∧
       0 ≤ order.price.q ∧ order.price.q ≤ 52 ∧
       0 ≤ order.volume.c ∧ order.volume.c ≤ 49 ∧
       0 ≤ order.volume.q ∧ order.volume.q ≤ 52 ∧
       0 ≤ order.minimumVolume.c ∧ order.minimumVolume.c ≤ 49 ∧
       0 ≤ order.minimumVolume.q ∧ order.minimumVolume.q ≤ 52)) ∧
    (verifyOrder order = false →
      ∀ (keccak : List Nat → List Nat) (sign : List Nat → SignResult),
        openOrder keccak sign order =
          Except.error ErrorInvalidOrderDetails) := by
  constructor
  · simp [verifyOrder, and_assoc]
  · intro h keccak sign
    simp [openOrder, h]

/-- An order with `price.mantissa = 2000` (and every other field in
bounds). -/
def order2000 : Order := { sampleOrder with price := ⟨2000, 0⟩ }

/-- An order with `volume.mantissa = 50`. -/
def orderVol50 : Order := { sampleOrder with volume := ⟨50, 0⟩ }

/-- An order with `volume.mantissa = 0`. -/
def orderVol0 : Order := { sampleOrder with volume := ⟨0, 0⟩ }

/-- Witness for `verifyOrder_bounds`: `price.mantissa = 1999` and
`volume.mantissa = 0` are accepted, `price.mantissa = 2000` and
`volume.mantissa = 50` are rejected, and the rejected order never
reaches hashing or signing in `openOrder`. -/
theorem verifyOrder_bounds_witness :
    verifyOrder sampleOrder = true ∧ verifyOrder order2000 = false ∧
    verifyOrder orderVol50 = false ∧ verifyOrder orderVol0 = true ∧
    openOrder (fun bs => bs) (fun _ => SignResult.ok []) order2000 =
      Except.error ErrorInvalidOrderDetails :=
  ⟨(verifyOrder_bounds sampleOrder).1.mpr (by decide), by decide, by decide,
   (verifyOrder_bounds orderVol0).1.mpr (by decide),
   (verifyOrder_bounds order2000).2 (by decide) _ _⟩

/-! ## Claim C10: `openOrder` changes only `id` and `signature` -/

/-- **C10.** For an order accepted by `verifyOrder` and a successful
signing call, `openOrder` returns the input order with only `id` and
`signature` replaced (the input value itself is immutable in the
model, as `Record.merge` is in the source). -/
theorem openOrder_frame (keccak : List Nat → List Nat)
    (sign : List Nat → SignResult) (order : Order) (sig : List Nat)
    (hv : verifyOrder order = true)
    (hs : sign (openMessageTag ++ getOrderID keccak order) =
      SignResult.ok sig) :
    openOrder keccak sign order =
      Except.ok { order with id := getOrderID keccak order,
                             signature := normalizeV sig } := by
  simp [openOrder, hv, hs]

/-- Witness for `openOrder_frame` at `sampleOrder` with an
always-succeeding signer. -/
theorem openOrder_frame_witness :
    openOrder (fun bs => bs) (fun _ => SignResult.ok (List.replicate 65 27))
      sampleOrder =
      Except.ok { sampleOrder with
        id := getOrderID (fun bs => bs) sampleOrder,
        signature := normalizeV (List.replicate 65 27) } :=
  openOrder_frame (fun bs => bs) _ sampleOrder _ (by decide) rfl

/-! ## Claim C5: nonce bound is not checked by order validation -/

/-- `sampleOrder` with its nonce set to the field prime. -/
def nonceOutOfField : Order := { sampleOrder with nonce := PRIME }

/-- **C5 counterexample.** An order whose nonce equals the field prime
passes `verifyOrder`, and `openOrder` hashes, signs and returns it
instead of rejecting it: order validation does not enforce the nonce
bound. -/
theorem openOrder_accepts_nonce_ge_prime :
    PRIME ≤ nonceOutOfField.nonce ∧
    verifyOrder nonceOutOfField = true ∧
    openOrder (fun bs => bs) (fun _ => SignResult.ok (List.replicate 65 0))
      nonceOutOfField =
      Except.ok { nonceOutOfField with
        id := getOrderID (fun bs => bs) nonceOutOfField,
        signature := normalizeV (List.replicate 65 0) } := by
  have hv : verifyOrder nonceOutOfField = true := by decide
  refine ⟨Nat.le_refl _, hv, ?_⟩
  simp [openOrder, hv]

/-- **C5 amended.** `verifyOrder` never inspects the nonce (its verdict
is unchanged under any nonce replacement), so an order with
`nonce ≥ PRIME` is not rejected; the bound `nonce < PRIME` is ensured
only at generation time, every value returned by `randomNonce` being
below the field prime. -/
theorem verifyOrder_nonce_independent (order : Order) (m : Nat)
    (f : Nat → Nat) (i fuel v : Nat)
    (h : randomNonce f i fuel = some v) :
    verifyOrder { order with nonce := m } = verifyOrder order ∧
    v < PRIME := by
  refine ⟨rfl, ?_⟩
  induction fuel generalizing i with
  | zero => cases h
  | succ fuel ih =>
    rw [randomNonce] at h
    by_cases hc : f i < PRIME
    · rw [if_pos hc] at h
      cases h
      exact hc
    · rw [if_neg hc] at h
      exact ih _ h

/-- Witness for `verifyOrder_nonce_independent` at `sampleOrder`,
nonce replacement by `PRIME` and a constant-zero random source. -/
theorem verifyOrder_nonce_independent_witness :
    verifyOrder { sampleOrder with nonce := PRIME } =
      verifyOrder sampleOrder ∧ 0 < PRIME :=
  verifyOrder_nonce_independent sampleOrder PRIME (fun _ => 0) 0 1 0
    (by decide)

/-! ## Claim C8: missing darknode key gives the empty sentinel -/

/-- **C8.** If the registry lookup yields no key (`null` or empty
bytes), `getDarknodePublicKey` returns `none` and `encryptForDarknode`
returns the empty sentinel ciphertext instead of raising; and the
per-pod fragment build still produces one fragment per member node of
every pod, whatever the key lookups return. -/
theorem encryptForDarknode_missing_key (α : Type) [Inhabited α] :
    (∀ (rsa : RSAKey → List Nat → List Nat) (share : Share)
        (byteCount : Nat),
      encryptForDarknode rsa none share byteCount = ⟨[]⟩) ∧
    (∀ (getKeyHex : α → Option (List Nat)) (darknode : α),
      (getKeyHex darknode = none ∨ getKeyHex darknode = some []) →
      getDarknodePublicKey getKeyHex darknode = none) ∧
    (∀ (jsonHash : OrderFragment → List Nat)
        (split : Nat → Nat → Nat → List Share)
        (rsa : RSAKey → List Nat → List Nat)
        (getKeyHex : α → Option (List Nat)) (order : Order) (pool : Pool α),
      (buildPoolFragments jsonHash split rsa getKeyHex order pool).length =
        pool.darknodes.length) := by
  refine ⟨fun _ _ _ => rfl, ?_, ?_⟩
  · rintro getKeyHex darknode (h | h) <;> simp [getDarknodePublicKey, h]
  · intro jsonHash split rsa getKeyHex order pool
    simp [buildPoolFragments]

/-- Witness for `encryptForDarknode_missing_key`: a three-node pod whose
key lookups all fail still yields three fragments. -/
theorem encryptForDarknode_missing_key_witness :
    encryptForDarknode (fun _ bs => bs) none ⟨1, 2⟩ 8 =
      (⟨[]⟩ : EncodedData) ∧
    getDarknodePublicKey (fun _ : Nat => (none : Option (List Nat))) 7 =
      none ∧
    (buildPoolFragments (fun _ => [])
      (fun n _ s => (List.range n).map fun j => ⟨j + 1, s⟩)
      (fun _ bs => bs) (fun _ => none) sampleOrder
      ⟨[1], [10, 20, 30]⟩).length = 3 := by
  obtain ⟨h1, h2, h3⟩ := encryptForDarknode_missing_key Nat
  exact ⟨h1 _ _ _, h2 _ 7 (Or.inl rfl), (h3 _ _ _ _ _ _).trans rfl⟩

/-! ## `findSlot` and `podLoop` lemmas -/

section PodLemmas

variable {α : Type} [Inhabited α]

theorem nodup_getD_inj {l : List α} (h : l.Nodup) {i j : Nat}
    (hi : i < l.length) (hj : j < l.length)
    (he : l.getD i default = l.getD j default) : i = j := by
  rw [List.getD_eq_getElem _ _ hi, List.getD_eq_getElem _ _ hj] at he
  exact (h.getElem_inj_iff).mp he

theorem findSlot_some {reg : α → Bool} {darknodes : List α} {n : Nat}
    {pos : List Int} {fuel x y : Nat}
    (h : findSlot reg darknodes n pos x fuel = some y) (hx : x < n) :
    slotOK reg darknodes pos y = true ∧ y < n := by
  induction fuel generalizing x with
  | zero => cases h
  | succ fuel ih =>
    rw [findSlot] at h
    by_cases hok : slotOK reg darknodes pos x
    · rw [if_pos hok] at h
      cases h
      exact ⟨hok, hx⟩
    · rw [if_neg hok] at h
      exact ih h (Nat.mod_lt _ (by omega))

theorem findSlot_none {reg : α → Bool} {darknodes : List α} {n : Nat}
    {pos : List Int}
    (hall : ∀ y, y < n → slotOK reg darknodes pos y = false) :
    ∀ fuel x, x < n → findSlot reg darknodes n pos x fuel = none := by
  intro fuel
  induction fuel with
  | zero => intro x _; rfl
  | succ fuel ih =>
    intro x hx
    rw [findSlot, if_neg (by simp [hall x hx]), ih _ (Nat.mod_lt _ (by omega))]

theorem findSlot_isSome_aux {reg : α → Bool} {darknodes : List α} {n : Nat}
    {pos : List Int} :
    ∀ fuel x, x < n → ∀ t, t < fuel →
      slotOK reg darknodes pos ((x + t) % n) = true →
      (findSlot reg darknodes n pos x fuel).isSome := by
  intro fuel
  induction fuel with
  | zero => intro x _ t ht; omega
  | succ fuel ih =>
    intro x hx t ht hok
    rw [findSlot]
    by_cases h : slotOK reg darknodes pos x
    · rw [if_pos h]; rfl
    · rw [if_neg h]
      have ht0 : t ≠ 0 := by
        rintro rfl
        rw [Nat.add_zero, Nat.mod_eq_of_lt hx] at hok
        exact h hok
      obtain ⟨s, rfl⟩ := Nat.exists_eq_succ_of_ne_zero ht0
      apply ih ((x + 1) % n) (Nat.mod_lt _ (by omega)) s (by omega)
      have he : ((x + 1) % n + s) % n = (x + (s + 1)) % n := by
        rw [Nat.mod_add_mod]
        congr 1
        omega
      rw [he]
      exact hok

theorem findSlot_isSome {reg : α → Bool} {darknodes : List α} {n : Nat}
    {pos : List Int} (y0 : Nat) (hy0 : y0 < n)
    (hok : slotOK reg darknodes pos y0 = true) {x : Nat} (hx : x < n) :
    (findSlot reg darknodes n pos x n).isSome := by
  apply findSlot_isSome_aux n x hx ((y0 + n - x) % n) (Nat.mod_lt _ (by omega))
  have he : (x + (y0 + n - x) % n) % n = y0 := by
    rw [Nat.add_mod, Nat.mod_mod_of_dvd _ dvd_rfl, ← Nat.add_mod,
      show x + (y0 + n - x) = y0 + n by omega, Nat.add_mod_right,
      Nat.mod_eq_of_lt hy0]
  rw [he]
  exact hok

/-- The number of free registered slots. -/
def avail (reg : α → Bool) (darknodes : List α) (n : Nat)
    (pos : List Int) : Nat :=
  (List.range n).countP (fun y => slotOK reg darknodes pos y)

theorem avail_set (reg : α → Bool) (darknodes : List α) (n : Nat)
    (pos : List Int) (y : Nat) (i : Int) (hy : y < n) (hlen : pos.length = n)
    (hok : slotOK reg darknodes pos y = true) (hi : i ≠ -1) :
    avail reg darknodes n (pos.set y i) + 1 = avail reg darknodes n pos := by
  have hset : (pos.set y i).getD y (-1) = i :=
    getD_set_self pos y i (-1) (by omega)
  have hbeq : (i == (-1 : Int)) = false := beq_eq_false_iff_ne.mpr hi
  have hkey := countP_pointwise_pred (List.range n)
    (fun z => slotOK reg darknodes pos z)
    (fun z => slotOK reg darknodes (pos.set y i) z) y
    (List.nodup_range n) (List.mem_range.mpr hy) hok
    (by simp only [slotOK, hset, hbeq, Bool.and_false])
    (fun z _ hz => by
      simp only [slotOK, getD_set_ne pos y z i (-1) (Ne.symm hz)])
  simpa [avail] using hkey.symm

/-- The number of slots already assigned (`positionInOcean[y] !== -1`). -/
def markedCount (n : Nat) (pos : List Int) : Nat :=
  (List.range n).countP (fun y => !(pos.getD y (-1) == -1))

theorem markedCount_set (n : Nat) (pos : List Int) (y : Nat) (i : Int)
    (hy : y < n) (hlen : pos.length = n)
    (hunmarked : pos.getD y (-1) = -1) (hi : i ≠ -1) :
    markedCount n (pos.set y i) = markedCount n pos + 1 := by
  have hset : (pos.set y i).getD y (-1) = i :=
    getD_set_self pos y i (-1) (by omega)
  have hbeq : (i == (-1 : Int)) = false := beq_eq_false_iff_ne.mpr hi
  have hkey := countP_pointwise_pred (List.range n)
    (fun z => !((pos.set y i).getD z (-1) == -1))
    (fun z => !(pos.getD z (-1) == -1)) y
    (List.nodup_range n) (List.mem_range.mpr hy)
    (by show (!((pos.set y i).getD y (-1) == -1)) = true
        rw [hset, hbeq]; rfl)
    (by show (!(pos.getD y (-1) == -1)) = false
        rw [hunmarked]; rfl)
    (fun z _ hz => by
      simp only [getD_set_ne pos y z i (-1) (Ne.symm hz)])
  simpa [markedCount] using hkey

theorem podLoop_none (reg : α → Bool) (darknodes : List α)
    (n p e fuel : Nat) :
    ∀ (r i : Nat) (pos : List Int) (pools : List (List α)) (x : Nat),
      x < n → pos.length = n → avail reg darknodes n pos < r →
      podLoop reg darknodes n p e fuel i r pos pools x = none := by
  intro r
  induction r with
  | zero => intro i pos pools x _ _ h; omega
  | succ r ih =>
    intro i pos pools x hx hlen hav
    rw [podLoop]
    cases hf : findSlot reg darknodes n pos x fuel with
    | none => rfl
    | some y =>
      obtain ⟨hok, hy⟩ := findSlot_some hf hx
      have hdec := avail_set reg darknodes n pos y (i : Int) hy hlen hok
        (by omega)
      exact ih (i + 1) _ _ ((y + e) % n) (Nat.mod_lt _ (by omega))
        (by rw [List.length_set]; exact hlen) (by omega)

theorem podLoop_isSome (reg : α → Bool) (darknodes : List α) (n p e : Nat) :
    ∀ (r i : Nat) (pos : List Int) (pools : List (List α)) (x : Nat),
      x < n → pos.length = n → r ≤ avail reg darknodes n pos →
      (podLoop reg darknodes n p e n i r pos pools x).isSome := by
  intro r
  induction r with
  | zero => intro i pos pools x _ _ _; rfl
  | succ r ih =>
    intro i pos pools x hx hlen hav
    obtain ⟨y0, hy0, hok0⟩ : ∃ y0, y0 < n ∧
        slotOK reg darknodes pos y0 = true := by
      have hpos : 0 < avail reg darknodes n pos := by omega
      rw [avail] at hpos
      obtain ⟨y0, hmem, hok0⟩ := List.countP_pos_iff.mp hpos
      exact ⟨y0, List.mem_range.mp hmem, hok0⟩
    rw [podLoop]
    cases hf : findSlot reg darknodes n pos x n with
    | none =>
      have := findSlot_isSome y0 hy0 hok0 hx
      rw [hf] at this
      cases this
    | some y =>
      obtain ⟨hok, hy⟩ := findSlot_some hf hx
      have hdec := avail_set reg darknodes n pos y (i : Int) hy hlen hok
        (by omega)
      exact ih (i + 1) _ _ ((y + e) % n) (Nat.mod_lt _ (by omega))
        (by rw [List.length_set]; exact hlen) (by omega)

/-- Loop invariant of the pod-assignment `for` loop: every assigned node
is registered and sits in a marked slot, pods hold no duplicates, pods
are pairwise disjoint, and every marked slot's node sits in some pod. -/
def PodInv (reg : α → Bool) (darknodes : List α) (pos : List Int)
    (pools : List (List α)) : Prop :=
  (∀ l ∈ pools, ∀ a ∈ l, reg a = true ∧
    ∃ y, y < darknodes.length ∧ darknodes.getD y default = a ∧
      pos.getD y (-1) ≠ -1) ∧
  (∀ l ∈ pools, l.Nodup) ∧
  (∀ j1 j2, j1 < pools.length → j2 < pools.length → j1 ≠ j2 →
    ∀ a, a ∈ pools.getD j1 [] → a ∉ pools.getD j2 []) ∧
  (∀ y, y < darknodes.length → pos.getD y (-1) ≠ -1 →
    ∃ j, j < pools.length ∧ darknodes.getD y default ∈ pools.getD j [])

theorem podLoop_invariant (reg : α → Bool) (darknodes : List α)
    (p e fuel : Nat) (hα : darknodes.Nodup) :
    ∀ (r i : Nat) (pos : List Int) (pools : List (List α)) (x : Nat)
      (pos' : List Int) (pools' : List (List α)),
      podLoop reg darknodes darknodes.length p e fuel i r pos pools x =
        some (pos', pools') →
      x < darknodes.length → pos.length = darknodes.length →
      PodInv reg darknodes pos pools → pools.length = p → 0 < p →
      PodInv reg darknodes pos' pools' ∧ pools'.length = p ∧
      pos'.length = darknodes.length ∧
      markedCount darknodes.length pos' =
        markedCount darknodes.length pos + r := by
  intro r
  induction r with
  | zero =>
    intro i pos pools x pos' pools' hrun _ hlen hinv hp _
    rw [podLoop] at hrun
    cases hrun
    exact ⟨hinv, hp, hlen, rfl⟩
  | succ r ih =>
    intro i pos pools x pos' pools' hrun hx hlen hinv hp hp0
    rw [podLoop] at hrun
    cases hf : findSlot reg darknodes darknodes.length pos x fuel with
    | none => rw [hf] at hrun; cases hrun
    | some y =>
      rw [hf] at hrun
      obtain ⟨hok, hy⟩ := findSlot_some hf hx
      obtain ⟨hrega, hunmarked⟩ :
          reg (darknodes.getD y default) = true ∧ pos.getD y (-1) = -1 := by
        simpa [slotOK] using hok
      set a := darknodes.getD y default with ha
      set q := i % p with hq
      have hqlt : q < pools.length := hp ▸ Nat.mod_lt _ hp0
      -- The new node sits in no existing pod.
      have hnotin : ∀ j, j < pools.length → a ∉ pools.getD j [] := by
        intro j hj hmem
        have hl : pools.getD j [] ∈ pools := by
          rw [List.getD_eq_getElem _ _ hj]
          exact List.getElem_mem hj
        obtain ⟨-, y', hy', hay', hmark'⟩ := hinv.1 _ hl a hmem
        have : y' = y := nodup_getD_inj hα hy' hy (hay'.trans ha)
        rw [this] at hmark'
        exact hmark' hunmarked
      have hlen2 : (pos.set y (i : Int)).length = darknodes.length := by
        rw [List.length_set]; exact hlen
      have hmarkset : ∀ z, z ≠ y →
          (pos.set y (i : Int)).getD z (-1) = pos.getD z (-1) :=
        fun z hz => getD_set_ne pos y z _ _ (Ne.symm hz)
      have hmarky : (pos.set y (i : Int)).getD y (-1) = (i : Int) :=
        getD_set_self pos y _ _ (by omega)
      have hgetset : ∀ j, j < pools.length →
          (pools.set q (pools.getD q [] ++ [a])).getD j [] =
            if j = q then pools.getD q [] ++ [a] else pools.getD j [] := by
        intro j hj
        by_cases hjq : j = q
        · rw [if_pos hjq, hjq, getD_set_self _ _ _ _ hqlt]
        · rw [if_neg hjq, getD_set_ne _ _ _ _ _ (fun he => hjq he.symm)]
      have hinv2 : PodInv reg darknodes (pos.set y (i : Int))
          (pools.set q (pools.getD q [] ++ [a])) := by
        obtain ⟨h1, h2, h3, h4⟩ := hinv
        refine ⟨?_, ?_, ?_, ?_⟩
        · intro l hl b hb
          rcases List.mem_or_eq_of_mem_set hl with hl' | rfl
          · obtain ⟨hr, y', hy', hb', hm'⟩ := h1 _ hl' b hb
            refine ⟨hr, y', hy', hb', ?_⟩
            have hne : y' ≠ y := fun he => (he ▸ hm') hunmarked
            rw [hmarkset _ hne]
            exact hm'
          · rcases List.mem_append.mp hb with hb' | hb'
            · have hl' : pools.getD q [] ∈ pools := by
                rw [List.getD_eq_getElem _ _ hqlt]
                exact List.getElem_mem hqlt
              obtain ⟨hr, y', hy', hb'', hm'⟩ := h1 _ hl' b hb'
              refine ⟨hr, y', hy', hb'', ?_⟩
              have hne : y' ≠ y := fun he => (he ▸ hm') hunmarked
              rw [hmarkset _ hne]
              exact hm'
            · have hba : b = a := by simpa using hb'
              subst hba
              refine ⟨hrega, y, hy, rfl, ?_⟩
              rw [hmarky]
              omega
        · intro l hl
          rcases List.mem_or_eq_of_mem_set hl with hl' | rfl
          · exact h2 _ hl'
          · rw [List.nodup_append]
            refine ⟨h2 _ ?_, List.nodup_singleton a, ?_⟩
            · rw [List.getD_eq_getElem _ _ hqlt]
              exact List.getElem_mem hqlt
            · intro b hb hb'
              have hba : b = a := by simpa using hb'
              exact hnotin q hqlt (hba ▸ hb)
        · intro j1 j2 hj1 hj2 hne b hb1 hb2
          rw [List.length_set] at hj1 hj2
          rw [hgetset j1 hj1] at hb1
          rw [hgetset j2 hj2] at hb2
          by_cases h1q : j1 = q
          · rw [if_pos h1q] at hb1
            have h2q : j2 ≠ q := fun he => hne (h1q.trans he.symm)
            rw [if_neg h2q] at hb2
            rcases List.mem_append.mp hb1 with hb1' | hb1'
            · exact h3 q j2 hqlt hj2 (fun he => h2q he.symm) b hb1' hb2
            · have hba : b = a := by simpa using hb1'
              exact hnotin j2 hj2 (hba ▸ hb2)
          · rw [if_neg h1q] at hb1
            by_cases h2q : j2 = q
            · rw [if_pos h2q] at hb2
              rcases List.mem_append.mp hb2 with hb2' | hb2'
              · exact h3 j1 q hj1 hqlt (fun he => h1q he) b hb1 hb2'
              · have hba : b = a := by simpa using hb2'
                exact hnotin j1 hj1 (hba ▸ hb1)
            · rw [if_neg h2q] at hb2
              exact h3 j1 j2 hj1 hj2 hne b hb1 hb2
        · intro y' hy' hm'
          rw [List.length_set]
          by_cases hyy : y' = y
          · subst hyy
            refine ⟨q, hqlt, ?_⟩
            rw [hgetset q hqlt, if_pos rfl]
            exact List.mem_append.mpr (Or.inr (List.mem_singleton.mpr ha.symm))
          · rw [hmarkset _ hyy] at hm'
            obtain ⟨j, hj, hmem⟩ := h4 y' hy' hm'
            refine ⟨j, hj, ?_⟩
            rw [hgetset j hj]
            by_cases hjq : j = q
            · rw [if_pos hjq]
              exact List.mem_append.mpr (Or.inl (hjq ▸ hmem))
            · rw [if_neg hjq]
              exact hmem
      have hmc : markedCount darknodes.length (pos.set y (i : Int)) =
          markedCount darknodes.length pos + 1 :=
        markedCount_set _ pos y _ hy hlen hunmarked (by omega)
      have hrec := ih (i + 1) (pos.set y (i : Int))
        (pools.set q (pools.getD q [] ++ [a])) ((y + e) % darknodes.length)
        pos' pools' hrun (Nat.mod_lt _ (by omega)) hlen2 hinv2
        (by rw [List.length_set]; exact hp) hp0
      refine ⟨hrec.1, hrec.2.1, hrec.2.2.1, ?_⟩
      rw [hrec.2.2.2, hmc]
      omega

/-- Stepping the cursor by `e` and by `e % n` agree (both are reduced
mod `n` immediately). -/
theorem podLoop_mod_epoch (reg : α → Bool) (darknodes : List α)
    (n p e fuel : Nat) :
    ∀ (r i : Nat) (pos : List Int) (pools : List (List α)) (x : Nat),
      podLoop reg darknodes n p e fuel i r pos pools x =
      podLoop reg darknodes n p (e % n) fuel i r pos pools x := by
  intro r
  induction r with
  | zero => intro i pos pools x; rfl
  | succ r ih =>
    intro i pos pools x
    rw [podLoop, podLoop]
    cases findSlot reg darknodes n pos x fuel with
    | none => rfl
    | some y =>
      dsimp only
      rw [ih]
      have he : (y + e) % n = (y + e % n) % n := by
        conv_lhs => rw [Nat.add_mod]
        conv_rhs => rw [Nat.add_mod, Nat.mod_mod_of_dvd _ dvd_rfl]
      rw [he]

/-- Unpacking a successful `getPods` run: the guards passed, the loop
succeeded, and the result is the finalizing map over the raw pools. -/
theorem getPods_ok_elim {hash : List Nat → List Nat}
    {addrBytes : α → List Nat} {darknodes : List α} {reg : α → Bool}
    {minimumPodSize epoch fuel : Nat} {pods : List (Pool α)}
    (h : getPods hash addrBytes darknodes reg minimumPodSize epoch fuel =
      some (Except.ok pods)) :
    darknodes.length ≠ 0 ∧ minimumPodSize ≠ 0 ∧
    ∃ pos' pools',
      podLoop reg darknodes darknodes.length
        (if darknodes.length / minimumPodSize = 0 then 1
         else darknodes.length / minimumPodSize) epoch fuel 0
        darknodes.length (List.replicate darknodes.length (-1))
        (List.replicate
          (if darknodes.length / minimumPodSize = 0 then 1
           else darknodes.length / minimumPodSize) [])
        (epoch % darknodes.length) = some (pos', pools') ∧
      pods = pools'.map (fun ds => ⟨hash (ds.map addrBytes).flatten, ds⟩) := by
  by_cases h0 : darknodes.length = 0
  · rw [getPods, if_pos h0] at h
    cases h
  by_cases hm : minimumPodSize = 0
  · rw [getPods, if_neg h0, if_pos hm] at h
    cases h
  refine ⟨h0, hm, ?_⟩
  rw [getPods, if_neg h0, if_neg hm] at h
  dsimp only at h
  cases hrun : podLoop reg darknodes darknodes.length
      (if darknodes.length / minimumPodSize = 0 then 1
       else darknodes.length / minimumPodSize) epoch fuel 0
      darknodes.length (List.replicate darknodes.length (-1))
      (List.replicate
        (if darknodes.length / minimumPodSize = 0 then 1
         else darknodes.length / minimumPodSize) [])
      (epoch % darknodes.length) with
  | none => rw [hrun] at h; cases h
  | some st =>
    rw [hrun] at h
    obtain ⟨pos', pools'⟩ := st
    refine ⟨pos', pools', rfl, ?_⟩
    have := Option.some.inj h
    have := Except.ok.inj this
    exact this.symm

/-- The initial `positionInOcean` is unmarked everywhere. -/
theorem markedCount_replicate (n : Nat) :
    markedCount n (List.replicate n (-1)) = 0 := by
  rw [markedCount, List.countP_eq_zero]
  intro y _
  rw [getD_replicate_self]
  simp

/-- The initial invariant holds for empty pools. -/
theorem podInv_init (reg : α → Bool) (darknodes : List α) (p : Nat) :
    PodInv reg darknodes (List.replicate darknodes.length (-1))
      (List.replicate p []) := by
  refine ⟨?_, ?_, ?_, ?_⟩
  · intro l hl a hal
    rw [List.eq_of_mem_replicate hl] at hal
    cases hal
  · intro l hl
    rw [List.eq_of_mem_replicate hl]
    exact List.nodup_nil
  · intro j1 j2 hj1 hj2 _ a ha1
    rw [List.length_replicate] at hj1
    rw [List.getD_eq_getElem _ _ (by simpa using hj1),
      List.getElem_replicate] at ha1
    cases ha1
  · intro y hy hmark
    rw [getD_replicate_self] at hmark
    exact absurd rfl hmark

end PodLemmas

/-! ## Claim C1: `getPods` implements the spec's pod-assignment algorithm -/

/-- **C1.** For every snapshot with a non-empty node list and non-zero
minimum pod size, `getPods` computes
`numberOfPods = max(1, ⌊totalNodes / minimumPodSize⌋)` and assigns nodes
by the spec's stride traversal: it coincides with `specAssignPods`,
the transcription of the spec's algorithm. -/
theorem getPods_eq_specAssignPods {α : Type} [Inhabited α]
    (hash : List Nat → List Nat) (addrBytes : α → List Nat)
    (darknodes : List α) (reg : α → Bool) (minimumPodSize epoch fuel : Nat)
    (h1 : darknodes ≠ []) (h2 : minimumPodSize ≠ 0) :
    getPods hash addrBytes darknodes reg minimumPodSize epoch fuel =
      specAssignPods hash addrBytes darknodes reg minimumPodSize epoch
        fuel := by
  have hn : darknodes.length ≠ 0 := fun h => h1 (List.length_eq_zero.mp h)
  rw [getPods, specAssignPods, if_neg hn, if_neg hn, if_neg h2, if_neg h2]
  dsimp only
  have hmax : (if darknodes.length / minimumPodSize = 0 then 1
      else darknodes.length / minimumPodSize) =
      max 1 (darknodes.length / minimumPodSize) := by
    rcases Nat.eq_zero_or_pos (darknodes.length / minimumPodSize) with
      hz | hpos
    · simp [hz]
    · rw [if_neg (by omega)]
      exact (Nat.max_eq_right hpos).symm
  rw [hmax, podLoop_mod_epoch]

/-- Witness for `getPods_eq_specAssignPods` on a three-node snapshot. -/
theorem getPods_eq_specAssignPods_witness :
    getPods (fun bs => bs) (fun a : Nat => [a]) [10, 20, 30] (fun _ => true)
        3 1 3 =
      specAssignPods (fun bs => bs) (fun a : Nat => [a]) [10, 20, 30]
        (fun _ => true) 3 1 3 :=
  getPods_eq_specAssignPods _ _ _ _ _ _ _ (by decide) (by decide)

/-! ## Claim C6: membership invariants of the pod assignment -/

/-- **C6.** In a successful `getPods` assignment over a duplicate-free
snapshot: no node address appears twice in the same pod; an
unregistered node never appears in any pod; and when `totalNodes` is a
multiple of the number of pods, every node address appears in exactly
one pod. -/
theorem getPods_membership_invariants {α : Type} [Inhabited α]
    (hash : List Nat → List Nat) (addrBytes : α → List Nat)
    (darknodes : List α) (reg : α → Bool) (minimumPodSize epoch fuel : Nat)
    (pods : List (Pool α)) (hnd : darknodes.Nodup)
    (h : getPods hash addrBytes darknodes reg minimumPodSize epoch fuel =
      some (Except.ok pods)) :
    (∀ pool ∈ pods, pool.darknodes.Nodup) ∧
    (∀ pool ∈ pods, ∀ a ∈ pool.darknodes, reg a = true) ∧
    (darknodes.length % pods.length = 0 →
      ∀ a ∈ darknodes, ∃ j, j < pods.length ∧
        a ∈ (pods.getD j ⟨[], []⟩).darknodes ∧
        ∀ j', j' < pods.length →
          a ∈ (pods.getD j' ⟨[], []⟩).darknodes → j' = j) := by
  obtain ⟨hn0, hm0, pos', pools', hrun, hpods⟩ := getPods_ok_elim h
  have hp0 : 0 < (if darknodes.length / minimumPodSize = 0 then 1
      else darknodes.length / minimumPodSize) := by
    rcases Nat.eq_zero_or_pos (darknodes.length / minimumPodSize) with
      hz | hpos
    · simp [hz]
    · rw [if_neg (by omega)]; exact hpos
  obtain ⟨hInv, hplen, hposlen, hmc⟩ := podLoop_invariant reg darknodes _
    epoch fuel hnd darknodes.length 0 _ _ _ pos' pools' hrun
    (Nat.mod_lt _ (by omega)) (List.length_replicate _ _)
    (podInv_init reg darknodes _) (List.length_replicate _ _) hp0
  rw [markedCount_replicate, Nat.zero_add] at hmc
  rw [markedCount] at hmc
  have hall : ∀ y, y < darknodes.length → pos'.getD y (-1) ≠ -1 := by
    intro y hy
    have hcount : (List.range darknodes.length).countP
        (fun z => !(pos'.getD z (-1) == -1)) =
        (List.range darknodes.length).length := by
      rw [List.length_range]
      exact hmc
    have := List.countP_eq_length.mp hcount y (List.mem_range.mpr hy)
    simpa using this
  obtain ⟨hInv1, hInv2, hInv3, hInv4⟩ := hInv
  refine ⟨?_, ?_, ?_⟩
  · intro pool hpool
    rw [hpods] at hpool
    obtain ⟨ds, hds, rfl⟩ := List.mem_map.mp hpool
    exact hInv2 ds hds
  · intro pool hpool a ha
    rw [hpods] at hpool
    obtain ⟨ds, hds, rfl⟩ := List.mem_map.mp hpool
    exact (hInv1 ds hds a ha).1
  · intro _ a hmem
    obtain ⟨y, hy, hget⟩ := List.mem_iff_getElem.mp hmem
    have hgetD : darknodes.getD y default = a := by
      rw [List.getD_eq_getElem _ _ hy, hget]
    obtain ⟨j, hj, hmemj⟩ := hInv4 y hy (hall y hy)
    have hlenpods : pods.length = pools'.length := by
      rw [hpods, List.length_map]
    have hpodsget : ∀ j', j' < pools'.length →
        (pods.getD j' ⟨[], []⟩).darknodes = pools'.getD j' [] := by
      intro j' hj'
      rw [hpods, List.getD_eq_getElem _ _ (by simpa using hj'),
        List.getElem_map, List.getD_eq_getElem _ _ hj']
    refine ⟨j, by omega, ?_, ?_⟩
    · rw [hpodsget j hj]
      exact hgetD ▸ hmemj
    · intro j' hj' hmem'
      rw [hpodsget j' (by omega)] at hmem'
      by_contra hne
      exact hInv3 j' j (by omega) hj hne a hmem' (hgetD ▸ hmemj)

/-! ## Claim C7: determinism and pod-id derivation of `getPods` -/

/-- **C7.** `getPods` is deterministic for a fixed snapshot and epoch
(two runs give the same result), and every returned pod's id is the
hash of the concatenation of its members' address bytes in assignment
order. -/
theorem getPods_deterministic {α : Type} [Inhabited α]
    (hash : List Nat → List Nat) (addrBytes : α → List Nat)
    (darknodes : List α) (reg : α → Bool) (minimumPodSize epoch fuel : Nat) :
    getPods hash addrBytes darknodes reg minimumPodSize epoch fuel =
      getPods hash addrBytes darknodes reg minimumPodSize epoch fuel ∧
    ∀ pods, getPods hash addrBytes darknodes reg minimumPodSize epoch fuel =
        some (Except.ok pods) →
      ∀ pool ∈ pods,
        pool.id = hash (pool.darknodes.map addrBytes).flatten := by
  refine ⟨rfl, ?_⟩
  intro pods h pool hpool
  obtain ⟨-, -, pos', pools', -, hpods⟩ := getPods_ok_elim h
  rw [hpods] at hpool
  obtain ⟨ds, -, rfl⟩ := List.mem_map.mp hpool
  rfl

/-- Witness for `getPods_deterministic` on a concrete three-node
snapshot (one pod, assignment order `[20, 30, 10]` for epoch 1). -/
theorem getPods_deterministic_witness :
    (⟨[20, 30, 10], [20, 30, 10]⟩ : Pool Nat).id =
      (fun bs => bs) ((([20, 30, 10] : List Nat).map
        (fun a : Nat => [a])).flatten) :=
  (getPods_deterministic (fun bs => bs) (fun a : Nat => [a]) [10, 20, 30]
    (fun _ => true) 3 1 3).2 [⟨[20, 30, 10], [20, 30, 10]⟩] rfl
    ⟨[20, 30, 10], [20, 30, 10]⟩ (List.mem_singleton.mpr rfl)

/-! ## Claim C9: termination of the pod-assignment loop -/

/-- **C9.** With a non-empty node list and non-zero minimum pod size,
the pod-assignment loop terminates (with slot-search fuel `totalNodes`)
whenever every listed node is registered; and when any listed node is
unregistered the inner cursor-advance loop cannot terminate — for every
fuel bound the run fails — because its only exit needs a registered
unused slot among `totalNodes` slots while all `totalNodes` iterations
must each consume one. -/
theorem getPods_termination {α : Type} [Inhabited α]
    (hash : List Nat → List Nat) (addrBytes : α → List Nat)
    (darknodes : List α) (reg : α → Bool) (minimumPodSize epoch : Nat)
    (h1 : darknodes ≠ []) (h2 : minimumPodSize ≠ 0) :
    ((∀ a ∈ darknodes, reg a = true) →
      ∃ pods, getPods hash addrBytes darknodes reg minimumPodSize epoch
        darknodes.length = some (Except.ok pods)) ∧
    ((∃ a ∈ darknodes, reg a = false) →
      ∀ fuel,
        getPods hash addrBytes darknodes reg minimumPodSize epoch fuel =
          none) := by
  have hn : darknodes.length ≠ 0 := fun h => h1 (List.length_eq_zero.mp h)
  constructor
  · intro hall
    have hav : avail reg darknodes darknodes.length
        (List.replicate darknodes.length (-1)) = darknodes.length := by
      rw [avail, List.countP_eq_length.mpr, List.length_range]
      intro y hy
      have hy' := List.mem_range.mp hy
      have hmem : darknodes.getD y default ∈ darknodes := by
        rw [List.getD_eq_getElem _ _ hy']
        exact List.getElem_mem hy'
      rw [slotOK, hall _ hmem, getD_replicate_self]
      rfl
    have hsome := podLoop_isSome reg darknodes darknodes.length
      (if darknodes.length / minimumPodSize = 0 then 1
       else darknodes.length / minimumPodSize) epoch darknodes.length 0
      (List.replicate darknodes.length (-1))
      (List.replicate
        (if darknodes.length / minimumPodSize = 0 then 1
         else darknodes.length / minimumPodSize) [])
      (epoch % darknodes.length) (Nat.mod_lt _ (by omega))
      (List.length_replicate _ _) (by rw [hav])
    cases hrun : podLoop reg darknodes darknodes.length
        (if darknodes.length / minimumPodSize = 0 then 1
         else darknodes.length / minimumPodSize) epoch darknodes.length 0
        darknodes.length (List.replicate darknodes.length (-1))
        (List.replicate
          (if darknodes.length / minimumPodSize = 0 then 1
           else darknodes.length / minimumPodSize) [])
        (epoch % darknodes.length) with
    | none => rw [hrun] at hsome; cases hsome
    | some st =>
      obtain ⟨pos', pools'⟩ := st
      refine ⟨pools'.map (fun ds => ⟨hash (ds.map addrBytes).flatten, ds⟩),
        ?_⟩
      rw [getPods, if_neg hn, if_neg h2]
      dsimp only
      rw [hrun]
  · rintro ⟨a, hmem, hreg⟩ fuel
    obtain ⟨y0, hy0, hget0⟩ := List.mem_iff_getElem.mp hmem
    have hav : avail reg darknodes darknodes.length
        (List.replicate darknodes.length (-1)) < darknodes.length := by
      have hle : avail reg darknodes darknodes.length
          (List.replicate darknodes.length (-1)) ≤ darknodes.length := by
        rw [avail]
        calc (List.range darknodes.length).countP _ ≤
            (List.range darknodes.length).length :=
              List.countP_le_length _
          _ = darknodes.length := List.length_range _
      rcases Nat.lt_or_ge (avail reg darknodes darknodes.length
        (List.replicate darknodes.length (-1))) darknodes.length with
        hlt | hge
      · exact hlt
      · exfalso
        have heq : (List.range darknodes.length).countP
            (fun y => slotOK reg darknodes
              (List.replicate darknodes.length (-1)) y) =
            (List.range darknodes.length).length := by
          rw [List.length_range]
          have : avail reg darknodes darknodes.length
              (List.replicate darknodes.length (-1)) =
              darknodes.length := by omega
          rw [avail] at this
          exact this
        have hok0 := List.countP_eq_length.mp heq y0
          (List.mem_range.mpr hy0)
        rw [slotOK] at hok0
        have hregy : reg (darknodes.getD y0 default) = false := by
          rw [List.getD_eq_getElem _ _ hy0, hget0]
          exact hreg
        rw [hregy] at hok0
        cases hok0
    have hnone := podLoop_none reg darknodes darknodes.length
      (if darknodes.length / minimumPodSize = 0 then 1
       else darknodes.length / minimumPodSize) epoch fuel
      darknodes.length 0 (List.replicate darknodes.length (-1))
      (List.replicate
        (if darknodes.length / minimumPodSize = 0 then 1
         else darknodes.length / minimumPodSize) [])
      (epoch % darknodes.length) (Nat.mod_lt _ (by omega))
      (List.length_replicate _ _) hav
    rw [getPods, if_neg hn, if_neg h2]
    dsimp only
    rw [hnone]

/-- Witness for `getPods_termination`: a fully registered three-node
snapshot succeeds with fuel 3; marking node 20 unregistered makes the
run fail for fuel 5 (as for every fuel). -/
theorem getPods_termination_witness :
    (getPods (fun bs => bs) (fun a : Nat => [a]) [10, 20, 30]
      (fun _ => true) 3 1 3).isSome ∧
    getPods (fun bs => bs) (fun a : Nat => [a]) [10, 20, 30]
      (fun a => !(a == 20)) 3 1 5 = none := by
  constructor
  · obtain ⟨pods, hp⟩ := (getPods_termination (fun bs => bs)
      (fun a : Nat => [a]) [10, 20, 30] (fun _ => true) 3 1 (by decide)
      (by decide)).1 (by decide)
    rw [show ([10, 20, 30] : List Nat).length = 3 from rfl] at hp
    rw [hp]
    rfl
  · exact (getPods_termination (fun bs => bs) (fun a : Nat => [a])
      [10, 20, 30] (fun a => !(a == 20)) 3 1 (by decide) (by decide)).2
      ⟨20, by decide, rfl⟩ 5

/-- Witness for `getPods_membership_invariants` on a concrete
three-node snapshot (epoch 1 yields the single pod `[20, 30, 10]`). -/
theorem getPods_membership_invariants_witness :
    ([20, 30, 10] : List Nat).Nodup ∧
    (10 : Nat) ∈ ([20, 30, 10] : List Nat) := by
  obtain ⟨ha, -, hc⟩ := getPods_membership_invariants (fun bs => bs)
    (fun a : Nat => [a]) [10, 20, 30] (fun _ => true) 3 1 3
    [⟨[20, 30, 10], [20, 30, 10]⟩] (by decide) rfl
  constructor
  · exact ha ⟨[20, 30, 10], [20, 30, 10]⟩ (List.mem_singleton.mpr rfl)
  · obtain ⟨j, hj, hmem, -⟩ := hc (by decide) 10 (by decide)
    have hj1 : j < 1 := by simpa using hj
    have hj0 : j = 0 := by omega
    subst hj0
    exact hmem

/-! ## Claim C2: per-pod fragment construction -/

/-- Looking up a key absent from every pod id falls through the whole
reduce to the initial mapping. -/
theorem foldl_upd_not_mem {α : Type}
    (bp : Pool α → List OrderFragment) (pools : List (Pool α)) :
    ∀ (m0 : List Nat → Option (List OrderFragment)) (key : List Nat),
      key ∉ pools.map Pool.id →
      (pools.foldl (fun m pool => fun k =>
        if k = pool.id then some (bp pool) else m k) m0) key = m0 key := by
  induction pools with
  | nil => intro m0 key _; rfl
  | cons q rest ih =>
    intro m0 key hk
    have hk1 : key ∉ List.map Pool.id rest := by
      intro hm
      exact hk (by rw [List.map_cons]; exact List.mem_cons_of_mem _ hm)
    have hk2 : key ≠ q.id := by
      intro he
      exact hk (by rw [List.map_cons, he]; exact List.mem_cons_self _ _)
    rw [List.foldl_cons, ih _ _ hk1, if_neg hk2]

/-- With pairwise-distinct pod ids, the reduce maps each pod's id to
that pod's fragment list. -/
theorem foldl_upd_lookup {α : Type}
    (bp : Pool α → List OrderFragment) (pools : List (Pool α))
    (pool : Pool α) :
    ∀ (m0 : List Nat → Option (List OrderFragment)),
      (pools.map Pool.id).Nodup → pool ∈ pools →
      (pools.foldl (fun m q => fun k =>
        if k = q.id then some (bp q) else m k) m0) pool.id =
        some (bp pool) := by
  induction pools with
  | nil => intro m0 _ hmem; cases hmem
  | cons q rest ih =>
    intro m0 hnd hmem
    rw [List.map_cons, List.nodup_cons] at hnd
    rw [List.foldl_cons]
    rcases List.mem_cons.mp hmem with rfl | hmem'
    · rw [foldl_upd_not_mem _ _ _ _ hnd.1, if_pos rfl]
    · exact ih _ hnd.2 hmem'

/-- **C2.** For every pod of size `n`, the fragment builder uses
threshold `k = ⌊2(n+1)/3⌋`, splits each of the 8 numeric sub-values
into `n` shares, and emits exactly `n` fragments for that pod — the
node at position `i` receiving index `i + 1`, so the indices are
exactly `{1..n}` and pairwise distinct — grouped in the result mapping
under that pod's id. -/
theorem buildOrderFragmentsForPods_pod_fragments {α : Type} [Inhabited α]
    (keccak : List Nat → List Nat) (jsonHash : OrderFragment → List Nat)
    (split : Nat → Nat → Nat → List Share)
    (rsa : RSAKey → List Nat → List Nat) (addrBytes : α → List Nat)
    (getKeyHex : α → Option (List Nat)) (darknodes : List α)
    (reg : α → Bool) (minimumPodSize epoch fuel : Nat) (order : Order)
    (pods : List (Pool α)) (m : List Nat → Option (List OrderFragment))
    (pool : Pool α)
    (hsplit : ∀ n k s, (split n k s).length = n)
    (hpods : getPods keccak addrBytes darknodes reg minimumPodSize epoch
      fuel = some (Except.ok pods))
    (hres : buildOrderFragmentsForPods keccak jsonHash split rsa addrBytes
      getKeyHex darknodes reg minimumPodSize epoch fuel order =
      some (Except.ok m))
    (hnd : (pods.map Pool.id).Nodup) (hmem : pool ∈ pods) :
    m pool.id =
      some (buildPoolFragments jsonHash split rsa getKeyHex order pool) ∧
    (∀ s, (split pool.darknodes.length
      (2 * (pool.darknodes.length + 1) / 3) s).length =
      pool.darknodes.length) ∧
    (buildPoolFragments jsonHash split rsa getKeyHex order pool).length =
      pool.darknodes.length ∧
    (buildPoolFragments jsonHash split rsa getKeyHex order pool).map
        OrderFragment.index =
      (List.range pool.darknodes.length).map (· + 1) ∧
    ((buildPoolFragments jsonHash split rsa getKeyHex order pool).map
      OrderFragment.index).Nodup ∧
    ∀ i, i < pool.darknodes.length →
      (buildPoolFragments jsonHash split rsa getKeyHex order pool).getD i
          default =
        (let n := pool.darknodes.length
         let k := 2 * (n + 1) / 3
         let darknodeKey := getDarknodePublicKey getKeyHex
           (pool.darknodes.getD i default)
         let fragment : OrderFragment :=
           { id := []
             orderSignature := order.signature
             orderId := order.id
             orderType := order.type
             orderParity := order.parity
             orderSettlement := order.orderSettlement
             orderExpiry := order.expiry
             tokens := encryptForDarknode rsa darknodeKey
               ((split n k order.tokens).getD i default) 8
             price :=
               (encryptForDarknode rsa darknodeKey
                  ((split n k order.price.c.toNat).getD i default) 8,
                encryptForDarknode rsa darknodeKey
                  ((split n k order.price.q.toNat).getD i default) 8)
             volume :=
               (encryptForDarknode rsa darknodeKey
                  ((split n k order.volume.c.toNat).getD i default) 8,
                encryptForDarknode rsa darknodeKey
                  ((split n k order.volume.q.toNat).getD i default) 8)
             minimumVolume :=
               (encryptForDarknode rsa darknodeKey
                  ((split n k order.minimumVolume.c.toNat).getD i default)
                  8,
                encryptForDarknode rsa darknodeKey
                  ((split n k order.minimumVolume.q.toNat).getD i default)
                  8)
             nonce := encryptForDarknode rsa darknodeKey
               ((split n k order.nonce).getD i default) 8
             index := i + 1 }
         { fragment with id := jsonHash fragment }) := by
  have hmap : (buildPoolFragments jsonHash split rsa getKeyHex order
      pool).map OrderFragment.index =
      (List.range pool.darknodes.length).map (· + 1) := by
    rw [buildPoolFragments]
    dsimp only
    rw [List.map_map]
    exact List.map_congr_left (fun i _ => rfl)
  refine ⟨?_, fun s => hsplit _ _ s, ?_, hmap, ?_, ?_⟩
  · rw [buildOrderFragmentsForPods, hpods] at hres
    dsimp only at hres
    have hm := Except.ok.inj (Option.some.inj hres)
    rw [← hm]
    exact foldl_upd_lookup _ pods pool _ hnd hmem
  · rw [buildPoolFragments]
    dsimp only
    rw [List.length_map, List.length_range]
  · rw [hmap]
    exact List.Nodup.map (fun a b h => by omega) (List.nodup_range _)
  · intro i hi
    rw [buildPoolFragments]
    dsimp only
    rw [getD_map_range _ hi]

/-- A deterministic stand-in for `shamir.split` used by the witness:
`n` shares indexed `1..n`. -/
def witnessSplit : Nat → Nat → Nat → List Share :=
  fun n _ s => (List.range n).map fun j => ⟨j + 1, s⟩

/-- Witness for `buildOrderFragmentsForPods_pod_fragments`: the single
pod of a concrete three-node snapshot gets exactly three fragments with
indices `[1, 2, 3]`. -/
theorem buildOrderFragmentsForPods_pod_fragments_witness :
    (buildPoolFragments (fun _ => []) witnessSplit (fun _ bs => bs)
      (fun _ : Nat => none) sampleOrder
      ⟨[20, 30, 10], [20, 30, 10]⟩).length = 3 ∧
    (buildPoolFragments (fun _ => []) witnessSplit (fun _ bs => bs)
      (fun _ : Nat => none) sampleOrder
      ⟨[20, 30, 10], [20, 30, 10]⟩).map OrderFragment.index = [1, 2, 3] := by
  obtain ⟨m, hres⟩ : ∃ m, buildOrderFragmentsForPods (fun bs => bs)
      (fun _ => []) witnessSplit (fun _ bs => bs) (fun a : Nat => [a])
      (fun _ : Nat => none) [10, 20, 30] (fun _ => true) 3 1 3 sampleOrder =
      some (Except.ok m) := ⟨_, rfl⟩
  obtain ⟨-, -, h2, h3, -, -⟩ := buildOrderFragmentsForPods_pod_fragments
    (fun bs => bs) (fun _ => []) witnessSplit (fun _ bs => bs)
    (fun a : Nat => [a]) (fun _ : Nat => none) [10, 20, 30] (fun _ => true)
    3 1 3 sampleOrder [⟨[20, 30, 10], [20, 30, 10]⟩] m
    ⟨[20, 30, 10], [20, 30, 10]⟩
    (fun n k s => by rw [witnessSplit, List.length_map, List.length_range])
    rfl hres (by decide) (List.mem_singleton.mpr rfl)
  exact ⟨h2, by rw [h3]; rfl⟩

end RenEx
